import Mathlib

/-!
Verification of the IgGM masking / QTA-initialization core
(`IgGM/protein/utils.py`): `get_mlm_masks`, `apply_mlm_masks` and
`init_qta_params`, shallowly embedded in Lean 4.

Python floats are modelled as rationals (for the discrete mask / corruption
path) or reals (for the geometric QTA path).  Python exceptions are modelled
with `Except PyErr`.  The random stream (`random.sample`, `random.choices`,
`torch.rand`, `torch.randn`) is passed in explicitly as function / list
parameters, with the documented stdlib contracts stated as hypotheses.
-/

/-- Kinds of Python exception that the embedded code can raise. -/
inductive PyErr where
  | valueError : PyErr
  | assertionError : PyErr
  | attributeError : PyErr
  deriving DecidableEq, Repr

instance exceptDecEq {ε α : Type} [DecidableEq ε] [DecidableEq α] :
    DecidableEq (Except ε α)
  | .error a, .error b =>
    if h : a = b then .isTrue (by rw [h]) else .isFalse (fun hh => h (by cases hh; rfl))
  | .error _, .ok _ => .isFalse (fun hh => by cases hh)
  | .ok _, .error _ => .isFalse (fun hh => by cases hh)
  | .ok a, .ok b =>
    if h : a = b then .isTrue (by rw [h]) else .isFalse (fun hh => h (by cases hh; rfl))

/-- Python `int(x)` on a float: truncation toward zero. -/
def pyInt (q : ℚ) : ℤ :=
  if 0 ≤ q then ⌊q⌋ else ⌈q⌉

/-- Number of residues to mask (`utils.py` line 38):
`n_resds_mask = int(n_resds_cand * mask_prob + 0.5)`. -/
def n_resds_mask (n_resds_cand : ℕ) (mask_prob : ℚ) : ℤ :=
  pyInt (n_resds_cand * mask_prob + 1 / 2)

/-- Indices of nonzero entries of a vector (`torch.nonzero(v)[:, 0].tolist()`),
entries abstracted to their nonzero-ness. -/
def nonzeroIdxs (v : List Bool) : List ℕ :=
  (List.range v.length).filter (fun i => v.getD i false)

/-- Candidate residue indices for one sequence (`utils.py` lines 32-35):
all positions when `mask_vecs` is `None`, otherwise the nonzero positions of
the eligibility vector at this sequence's index. -/
def candIdxs (mask_vecs : Option (List (List Bool))) (seqIdx : ℕ) (aa_seq : String) : List ℕ :=
  match mask_vecs with
  | none => List.range aa_seq.length
  | some mvs => nonzeroIdxs (mvs.getD seqIdx [])

/-- Python `random.sample(pop, k)`: succeeds iff `0 ≤ k ≤ len(pop)`, raising
`ValueError` otherwise; the actual draw is supplied by `sampler`. -/
def pySample (sampler : List ℕ → ℕ → List ℕ) (pop : List ℕ) (k : ℤ) : Except PyErr (List ℕ) :=
  if 0 ≤ k ∧ k.toNat ≤ pop.length then .ok (sampler pop k.toNat) else .error .valueError

/-- Contract of `random.sample`'s draw on a duplicate-free population:
it returns `k` pairwise-distinct elements of the population. -/
def ValidSampler (sampler : List ℕ → ℕ → List ℕ) : Prop :=
  ∀ pop k, pop.Nodup → k ≤ pop.length →
    (sampler pop k).length = k ∧ (sampler pop k).Nodup ∧ ∀ x ∈ sampler pop k, x ∈ pop

/-- Vector assignment `mask_vec[idxs_resd] = 1` (`utils.py` line 41).  An
out-of-range index is modelled as a no-op (`List.set` semantics); sampled
indices are always in range when each eligibility vector has the length of
its sequence, as the theorems hypothesize. -/
def setOnes (v : List ℕ) (idxs : List ℕ) : List ℕ :=
  idxs.foldl (fun acc i => acc.set i 1) v

/-- Lookup in the content-keyed mask dictionary `mask_vec_dict`. -/
def dictLookup (d : List (String × List ℕ)) (s : String) : Option (List ℕ) :=
  match d with
  | [] => none
  | (t, v) :: rest => if t = s then some v else dictLookup rest s

/-- The per-sequence loop of `get_mlm_masks` (`utils.py` lines 28-42) over the
enumerated sequence list, threading the content-keyed dictionary. -/
def get_mlm_masksAux (sampler : List ℕ → ℕ → List ℕ) (mask_prob : ℚ)
    (mask_vecs : Option (List (List Bool))) :
    List (ℕ × String) → List (String × List ℕ) → Except PyErr (List (String × List ℕ))
  | [], d => .ok d
  | (seqIdx, aa_seq) :: rest, d =>
    match dictLookup d aa_seq with
    | some _ => get_mlm_masksAux sampler mask_prob mask_vecs rest d
    | none =>
      let cand := candIdxs mask_vecs seqIdx aa_seq
      match pySample sampler cand (n_resds_mask cand.length mask_prob) with
      | .error e => .error e
      | .ok idxs =>
        get_mlm_masksAux sampler mask_prob mask_vecs rest
          (d ++ [(aa_seq, setOnes (List.replicate aa_seq.length 0) idxs)])

/-- Per-sequence mask vectors looked up in input order, before concatenation
(`utils.py` line 45, the list inside `torch.cat`). -/
def maskSegments (d : List (String × List ℕ)) (aa_seqs : List String) : List (List ℕ) :=
  aa_seqs.map (fun s => (dictLookup d s).getD [])

/-- `get_mlm_masks` (`utils.py` lines 11-47): build the content-keyed mask
dictionary, then concatenate the masks in input order. -/
def get_mlm_masks (sampler : List ℕ → ℕ → List ℕ) (aa_seqs : List String)
    (mask_prob : ℚ) (mask_vecs : Option (List (List Bool))) : Except PyErr (List ℕ) :=
  match get_mlm_masksAux sampler mask_prob mask_vecs aa_seqs.enum [] with
  | .error e => .error e
  | .ok d => .ok (maskSegments d aa_seqs).flatten

/-- A deterministic draw satisfying the `random.sample` contract, used to
instantiate witnesses. -/
def takeSampler : List ℕ → ℕ → List ℕ :=
  fun pop k => pop.take k

theorem takeSampler_valid : ValidSampler takeSampler := by
  intro pop k hnd hk
  refine ⟨?_, ?_, ?_⟩
  · simpa [takeSampler] using Nat.min_eq_left hk
  · exact hnd.sublist (List.take_sublist _ _)
  · intro x hx
    exact List.take_subset _ _ hx

/-- Modelled from the spec: `RESD_NAMES_1C` lives in the (missing)
`prot_constants` module; the spec describes it as "a residue-type symbol
enumeration (20 standard types)", here the one-letter codes of the 20
standard amino acids. -/
def RESD_NAMES_1C : List String :=
  ["A", "C", "D", "E", "F", "G", "H", "I", "K", "L",
   "M", "N", "P", "Q", "R", "S", "T", "V", "W", "Y"]

/-- The tokenization alphabet: symbol-to-index lookup and the dedicated
mask-token index (the two members `apply_mlm_masks` uses). -/
structure Alphabet where
  mask_idx : ℤ
  get_idx : String → ℤ

/-- One entry of `apply_mlm_masks` (`utils.py` lines 71-79): `mask_mat_pri`
holds where the mask entry is nonzero and the uniform draw is `< 0.8`,
`mask_mat_sec` where it is nonzero and the draw is `> 0.9`; the nested
`torch.where` then picks the mask token, the random token, or the original. -/
def apply_mlm_masksEntry (alphabet : Alphabet) (orig : ℤ) (m : ℤ) (r : ℚ) (tok : String) : ℤ :=
  if m ≠ 0 ∧ r < 4 / 5 then alphabet.mask_idx
  else if m ≠ 0 ∧ r > 9 / 10 then alphabet.get_idx tok
  else orig

/-- `apply_mlm_masks` (`utils.py` lines 50-81) on an `N × L` token matrix.
`toks` is the flat list drawn by `random.choices(RESD_NAMES_1C, k=N*L)` and
`prob_mat` the matrix drawn by `torch.rand((N, L))`, both passed explicitly;
`toks` is consumed in row-major order (the `view(batch_size, seq_len)`). -/
def apply_mlm_masks (alphabet : Alphabet) (tokn_mat_orig : List (List ℤ))
    (mask_mat : List (List ℤ)) (prob_mat : List (List ℚ)) (toks : List String) :
    List (List ℤ) :=
  let seq_len := (tokn_mat_orig.headD []).length
  tokn_mat_orig.enum.map (fun p =>
    p.2.enum.map (fun q =>
      apply_mlm_masksEntry alphabet q.2
        ((mask_mat.getD p.1 []).getD q.1 0)
        ((prob_mat.getD p.1 []).getD q.1 0)
        (toks.getD (p.1 * seq_len + q.1) "")))

/-- Modelled from the spec: `N_ANGLS_PER_RESD` lives in the (missing)
`prot_constants` module; the spec fixes "K torsion angles (K = 7 fixed
constant)". -/
def N_ANGLS_PER_RESD : ℕ := 7

/-- A quaternion `(qr, qx, qy, qz)`. -/
structure Quat where
  r : ℝ
  x : ℝ
  y : ℝ
  z : ℝ
  deriving Inhabited

/-- A 3-vector. -/
structure V3 where
  x : ℝ
  y : ℝ
  z : ℝ
  deriving Inhabited

/-- Backbone-atom coordinates of one residue: N, CA, C positions. -/
structure Resd3 where
  n : V3
  ca : V3
  c : V3
  deriving Inhabited

/-- Per-residue atom-validity flags for the N, CA, C atoms. -/
structure Cmsk3 where
  n : Bool
  ca : Bool
  c : Bool
  deriving Inhabited, DecidableEq

/-- Negation of a quaternion (the row-wise `*= -1` flip). -/
def Quat.neg (q : Quat) : Quat :=
  ⟨-q.r, -q.x, -q.y, -q.z⟩

/-- Squared L2 norm of a quaternion. -/
def Quat.normSq (q : Quat) : ℝ :=
  q.r ^ 2 + q.x ^ 2 + q.y ^ 2 + q.z ^ 2

/-- L2 norm of a quaternion (`torch.norm(quat_tns, dim=2)`). -/
noncomputable def Quat.norm (q : Quat) : ℝ :=
  Real.sqrt q.normSq

/-- Componentwise division of a quaternion by a scalar. -/
noncomputable def Quat.divide (q : Quat) (c : ℝ) : Quat :=
  ⟨q.r / c, q.x / c, q.y / c, q.z / c⟩

/-- Random-mode quaternion post-processing (`utils.py` lines 135-138): flip
the whole quaternion when `qr < 0`, then divide by the L2 norm. -/
noncomputable def canonQuat (q : Quat) : Quat :=
  let q1 := if q.r < 0 then q.neg else q
  q1.divide q1.norm

/-- Random-mode angle post-processing (`utils.py` lines 140-141): divide each
`(cos, sin)` pair by its L2 norm. -/
noncomputable def canonAngl (a : ℝ × ℝ) : ℝ × ℝ :=
  (a.1 / Real.sqrt (a.1 ^ 2 + a.2 ^ 2), a.2 / Real.sqrt (a.1 ^ 2 + a.2 ^ 2))

/-- The black-hole quaternion `(1, 0, 0, 0)`. -/
def bhQuat : Quat := ⟨1, 0, 0, 0⟩

/-- The black-hole translation `(0, 0, 0)`. -/
def bhTrsl : V3 := ⟨0, 0, 0⟩

/-- The black-hole angle list: `N_ANGLS_PER_RESD` copies of `(cos, sin) = (1, 0)`. -/
def bhAngl : List (ℝ × ℝ) := List.replicate N_ANGLS_PER_RESD (1, 0)

/-- An `N × L` grid built from a per-position function. -/
def qtaGrid {α : Type} (n_smpls n_resds : ℕ) (f : ℕ → ℕ → α) : List (List α) :=
  (List.range n_smpls).map (fun i => (List.range n_resds).map (fun j => f i j))

/-- The triple returned by `init_qta_params`: quaternions (`N × L × 4`),
translations (`N × L × 3`) and torsion angles (`N × L × K × 2`). -/
structure QtaOut where
  quat : List (List Quat)
  trsl : List (List V3)
  angl : List (List (List (ℝ × ℝ)))

/-- Shape check `list(t.shape) == [n_smpls, n_resds, ...]` for an `N × L`
nested list (the trailing per-residue dimensions are fixed by the type). -/
def shapeOk {α : Type} (t : List (List α)) (n_smpls n_resds : ℕ) : Prop :=
  t.length = n_smpls ∧ ∀ row ∈ t, row.length = n_resds

instance {α : Type} (t : List (List α)) (n m : ℕ) : Decidable (shapeOk t n m) :=
  instDecidableAnd

/-- The `'3d-cord'` branch of `init_qta_params` (`utils.py` lines 114-133),
factored out of the mode dispatch.  `framFn` stands for the per-residue
composition of `cord2fram_batch` and `rota2quat` from the (missing)
`diff_util` module — modelled from the spec as an abstract map from a
residue's three backbone-atom coordinates to its quaternion and translation.
Reading `.shape` of an omitted (`None`) tensor raises `AttributeError`; a
wrong shape fails the `assert`; otherwise each residue whose three validity
flags all hold gets the coordinate-derived quaternion/translation and every
other residue falls back to the black-hole values (`torch.where` on the
per-residue flag `rmsk_tns = torch.all(cmsk_tns, dim=2)`). -/
def init_qta_params_3dcord (framFn : Resd3 → Quat × V3) (n_smpls n_resds : ℕ)
    (cord_tns : Option (List (List Resd3))) (cmsk_tns : Option (List (List Cmsk3))) :
    Except PyErr QtaOut :=
  match cord_tns with
  | none => .error .attributeError
  | some cord =>
    if shapeOk cord n_smpls n_resds then
      match cmsk_tns with
      | none => .error .attributeError
      | some cmsk =>
        if shapeOk cmsk n_smpls n_resds then
          .ok ⟨qtaGrid n_smpls n_resds (fun i j =>
                 let mk := (cmsk.getD i []).getD j default
                 if mk.n && mk.ca && mk.c then
                   (framFn ((cord.getD i []).getD j default)).1
                 else bhQuat),
               qtaGrid n_smpls n_resds (fun i j =>
                 let mk := (cmsk.getD i []).getD j default
                 if mk.n && mk.ca && mk.c then
                   (framFn ((cord.getD i []).getD j default)).2
                 else bhTrsl),
               qtaGrid n_smpls n_resds (fun _ _ => bhAngl)⟩
        else .error .assertionError
    else .error .assertionError

/-- `init_qta_params` (`utils.py` lines 86-145).  `framFn` stands for the
per-residue composition of `cord2fram_batch` and `rota2quat` from the
(missing) `diff_util` module — modelled from the spec as an abstract map from
a residue's three backbone-atom coordinates to its quaternion and
translation.  `randQuat` / `randTrsl` / `randAngl` supply the `torch.randn`
draws of the random mode.  A `None` tensor in 3d-cord mode raises
`AttributeError` (reading `.shape` of `None`); a wrong shape raises
`AssertionError`; an unrecognized mode raises `ValueError`. -/
noncomputable def init_qta_params
    (framFn : Resd3 → Quat × V3)
    (randQuat : ℕ → ℕ → Quat) (randTrsl : ℕ → ℕ → V3) (randAngl : ℕ → ℕ → ℕ → ℝ × ℝ)
    (n_smpls n_resds : ℕ) (mode : String)
    (cord_tns : Option (List (List Resd3))) (cmsk_tns : Option (List (List Cmsk3))) :
    Except PyErr QtaOut :=
  if mode = "black-hole" then
    .ok ⟨qtaGrid n_smpls n_resds (fun _ _ => bhQuat),
         qtaGrid n_smpls n_resds (fun _ _ => bhTrsl),
         qtaGrid n_smpls n_resds (fun _ _ => bhAngl)⟩
  else if mode = "3d-cord" then
    init_qta_params_3dcord framFn n_smpls n_resds cord_tns cmsk_tns
  else if mode = "random" then
    .ok ⟨qtaGrid n_smpls n_resds (fun i j => canonQuat (randQuat i j)),
         qtaGrid n_smpls n_resds (fun i j => randTrsl i j),
         qtaGrid n_smpls n_resds (fun i j =>
           (List.range N_ANGLS_PER_RESD).map (fun k => canonAngl (randAngl i j k)))⟩
  else .error .valueError

/-! ### Dictionary lemmas -/

theorem dictLookup_append_of_some {d : List (String × List ℕ)} {t : String} {v : List ℕ}
    (h : dictLookup d t = some v) (l : List (String × List ℕ)) :
    dictLookup (d ++ l) t = some v := by
  induction d with
  | nil => simp [dictLookup] at h
  | cons hd tl ih =>
    obtain ⟨s, w⟩ := hd
    by_cases hst : s = t
    · simpa [dictLookup, hst] using by simpa [dictLookup, hst] using h
    · simp only [dictLookup, hst, if_false] at h ⊢
      exact ih h

theorem dictLookup_append_self {d : List (String × List ℕ)} {s : String} (v : List ℕ)
    (h : dictLookup d s = none) :
    dictLookup (d ++ [(s, v)]) s = some v := by
  induction d with
  | nil => simp [dictLookup]
  | cons hd tl ih =>
    obtain ⟨t, w⟩ := hd
    by_cases hts : t = s
    · simp [dictLookup, hts] at h
    · simp only [dictLookup, hts, if_false] at h ⊢
      exact ih h

theorem dictLookup_append_other {d : List (String × List ℕ)} {s t : String} (v : List ℕ)
    (h : t ≠ s) :
    dictLookup (d ++ [(s, v)]) t = dictLookup d t := by
  induction d with
  | nil => simp [dictLookup, Ne.symm h]
  | cons hd tl ih =>
    obtain ⟨u, w⟩ := hd
    by_cases hut : u = t
    · simp [dictLookup, hut]
    · simp only [dictLookup, hut, if_false]
      exact ih

/-! ### `setOnes` lemmas -/

theorem setOnes_length (v : List ℕ) (idxs : List ℕ) :
    (setOnes v idxs).length = v.length := by
  induction idxs generalizing v with
  | nil => rfl
  | cons i is ih =>
    show (setOnes (v.set i 1) is).length = v.length
    rw [ih, List.length_set]

theorem setOnes_getElem? (v : List ℕ) (idxs : List ℕ) (j : ℕ) :
    (setOnes v idxs)[j]? = if j ∈ idxs ∧ j < v.length then some 1 else v[j]? := by
  induction idxs generalizing v with
  | nil => simp [setOnes]
  | cons i is ih =>
    show (setOnes (v.set i 1) is)[j]? = _
    rw [ih, List.length_set, List.getElem?_set]
    by_cases hj : j < v.length
    · by_cases hmem : j ∈ is
      · simp [hmem, hj]
      · by_cases hij : i = j
        · simp [hmem, hij, hj]
        · simp [hmem, hij, hj, Ne.symm hij]
    · have hnone : v[j]? = none := List.getElem?_eq_none (Nat.le_of_not_lt hj)
      by_cases hmem : j ∈ is
      · by_cases hij : i = j
        · simp [hmem, hij, hj, hnone]
        · simp [hmem, hij, hj, hnone]
      · by_cases hij : i = j
        · simp [hmem, hij, hj, hnone]
        · simp [hmem, hij, hj, hnone, Ne.symm hij]

theorem setOnes_replicate_eq (n : ℕ) (idxs : List ℕ) :
    setOnes (List.replicate n 0) idxs =
      (List.range n).map (fun j => if j ∈ idxs then 1 else 0) := by
  apply List.ext_getElem?
  intro j
  rw [setOnes_getElem?, List.length_replicate]
  by_cases hj : j < n
  · have h1 : (List.replicate n (0 : ℕ))[j]? = some 0 := by
      simp [List.getElem?_replicate, hj]
    have h2 : ((List.range n).map (fun j => if j ∈ idxs then 1 else 0))[j]? =
        some (if j ∈ idxs then 1 else 0) := by
      rw [List.getElem?_eq_getElem (by simpa using hj)]
      simp [List.getElem_map, List.getElem_range]
    rw [h1, h2]
    by_cases hmem : j ∈ idxs <;> simp [hmem, hj]
  · have h1 : (List.replicate n (0 : ℕ))[j]? = none := by
      simp [List.getElem?_replicate, hj]
    have h2 : ((List.range n).map (fun j => if j ∈ idxs then 1 else 0))[j]? = none := by
      apply List.getElem?_eq_none
      simpa using Nat.le_of_not_lt hj
    rw [h1, h2]
    simp [hj]

theorem setOnes_count (n : ℕ) (idxs : List ℕ) (hnd : idxs.Nodup)
    (hlt : ∀ x ∈ idxs, x < n) :
    (setOnes (List.replicate n 0) idxs).count 1 = idxs.length := by
  rw [setOnes_replicate_eq, List.count_eq_countP, List.countP_map]
  have hcong : List.countP ((fun x => x == 1) ∘ fun j => if j ∈ idxs then 1 else 0)
      (List.range n) = List.countP (fun j => decide (j ∈ idxs)) (List.range n) := by
    apply List.countP_congr
    intro a _
    by_cases hmem : a ∈ idxs <;> simp [hmem]
  rw [hcong, List.countP_eq_length_filter]
  have hperm : ((List.range n).filter (fun j => decide (j ∈ idxs))).Perm idxs := by
    apply (List.perm_ext_iff_of_nodup ((List.nodup_range n).filter _) hnd).mpr
    intro a
    simp only [List.mem_filter, List.mem_range, decide_eq_true_eq]
    exact ⟨fun h => h.2, fun h => ⟨hlt a h, h⟩⟩
  exact hperm.length_eq

/-! ### Candidate-set lemmas -/

theorem nonzeroIdxs_nodup (v : List Bool) : (nonzeroIdxs v).Nodup :=
  (List.nodup_range v.length).filter _

theorem nonzeroIdxs_lt (v : List Bool) : ∀ x ∈ nonzeroIdxs v, x < v.length := by
  intro x hx
  simpa using (List.mem_filter.mp hx).1

theorem candIdxs_nodup (mask_vecs : Option (List (List Bool))) (i : ℕ) (s : String) :
    (candIdxs mask_vecs i s).Nodup := by
  cases mask_vecs with
  | none => exact List.nodup_range _
  | some mvs => exact nonzeroIdxs_nodup _

theorem candIdxs_lt_none (i : ℕ) (s : String) :
    ∀ x ∈ candIdxs none i s, x < s.length := by
  intro x hx
  simpa [candIdxs] using hx

theorem candIdxs_lt_some (mvs : List (List Bool)) (i : ℕ) (s : String)
    (hlen : (mvs.getD i []).length = s.length) :
    ∀ x ∈ candIdxs (some mvs) i s, x < s.length := by
  intro x hx
  have := nonzeroIdxs_lt (mvs.getD i []) x hx
  omega

/-! ### Arithmetic of the mask count -/

theorem n_resds_mask_nonneg (n : ℕ) (p : ℚ) (hp0 : 0 < p) :
    0 ≤ n_resds_mask n p := by
  have hq : (0 : ℚ) ≤ (n : ℚ) * p + 1 / 2 := by positivity
  rw [n_resds_mask, pyInt, if_pos hq]
  exact Int.floor_nonneg.mpr hq

theorem n_resds_mask_le (n : ℕ) (p : ℚ) (hp0 : 0 < p) (hp1 : p ≤ 1) :
    n_resds_mask n p ≤ n := by
  have hq : (0 : ℚ) ≤ (n : ℚ) * p + 1 / 2 := by positivity
  rw [n_resds_mask, pyInt, if_pos hq]
  have hle : (n : ℚ) * p + 1 / 2 ≤ (n : ℤ) + 1 / 2 := by
    push_cast
    nlinarith [Nat.cast_nonneg (α := ℚ) n]
  calc ⌊(n : ℚ) * p + 1 / 2⌋ ≤ ⌊((n : ℤ) : ℚ) + 1 / 2⌋ := Int.floor_le_floor (by exact_mod_cast hle)
    _ = (n : ℤ) + ⌊(1 / 2 : ℚ)⌋ := Int.floor_int_add _ _
    _ = n := by norm_num

/-! ### Loop invariants of `get_mlm_masksAux` -/

theorem pySample_error {sampler : List ℕ → ℕ → List ℕ} {pop : List ℕ} {k : ℤ} {e : PyErr}
    (h : pySample sampler pop k = .error e) : e = .valueError := by
  rw [pySample] at h
  split at h
  · cases h
  · cases h
    rfl

theorem pySample_ok_elim {sampler : List ℕ → ℕ → List ℕ} {pop : List ℕ} {k : ℤ}
    {idxs : List ℕ} (h : pySample sampler pop k = .ok idxs) :
    0 ≤ k ∧ k.toNat ≤ pop.length ∧ idxs = sampler pop k.toNat := by
  rw [pySample] at h
  by_cases hc : 0 ≤ k ∧ k.toNat ≤ pop.length
  · rw [if_pos hc] at h
    cases h
    exact ⟨hc.1, hc.2, rfl⟩
  · rw [if_neg hc] at h
    cases h

theorem get_mlm_masksAux_mono {sampler : List ℕ → ℕ → List ℕ} {p : ℚ}
    {mvs : Option (List (List Bool))} :
    ∀ {l : List (ℕ × String)} {d d' : List (String × List ℕ)},
      get_mlm_masksAux sampler p mvs l d = .ok d' →
      ∀ {t : String} {v : List ℕ}, dictLookup d t = some v → dictLookup d' t = some v := by
  intro l
  induction l with
  | nil =>
    intro d d' h t v hv
    cases h
    exact hv
  | cons hd rest ih =>
    obtain ⟨i, s⟩ := hd
    intro d d' h t v hv
    cases hls : dictLookup d s with
    | some w =>
      simp only [get_mlm_masksAux, hls] at h
      exact ih h hv
    | none =>
      simp only [get_mlm_masksAux, hls] at h
      cases hps : pySample sampler (candIdxs mvs i s)
          (n_resds_mask (candIdxs mvs i s).length p) with
      | error e =>
        simp only [hps] at h
        cases h
      | ok idxs =>
        simp only [hps] at h
        exact ih h (dictLookup_append_of_some hv _)

theorem get_mlm_masksAux_entries {sampler : List ℕ → ℕ → List ℕ} {p : ℚ}
    {mvs : Option (List (List Bool))} :
    ∀ {l : List (ℕ × String)} {d d' : List (String × List ℕ)},
      get_mlm_masksAux sampler p mvs l d = .ok d' →
      ∀ {t : String} {v : List ℕ}, dictLookup d' t = some v →
        dictLookup d t = some v ∨
        ∃ i idxs, (i, t) ∈ l ∧
          pySample sampler (candIdxs mvs i t) (n_resds_mask (candIdxs mvs i t).length p) =
            .ok idxs ∧
          v = setOnes (List.replicate t.length 0) idxs := by
  intro l
  induction l with
  | nil =>
    intro d d' h t v hv
    cases h
    exact Or.inl hv
  | cons hd rest ih =>
    obtain ⟨i, s⟩ := hd
    intro d d' h t v hv
    cases hls : dictLookup d s with
    | some w =>
      simp only [get_mlm_masksAux, hls] at h
      rcases ih h hv with hold | ⟨i', idxs, hmem, hps, hval⟩
      · exact Or.inl hold
      · exact Or.inr ⟨i', idxs, List.mem_cons_of_mem _ hmem, hps, hval⟩
    | none =>
      simp only [get_mlm_masksAux, hls] at h
      cases hps : pySample sampler (candIdxs mvs i s)
          (n_resds_mask (candIdxs mvs i s).length p) with
      | error e =>
        simp only [hps] at h
        cases h
      | ok idxs =>
        simp only [hps] at h
        rcases ih h hv with hold | ⟨i', idxs', hmem, hps', hval⟩
        · by_cases hts : t = s
          · subst hts
            rw [dictLookup_append_self _ hls] at hold
            cases hold
            exact Or.inr ⟨i, idxs, List.mem_cons_self _ _, hps, rfl⟩
          · rw [dictLookup_append_other _ hts] at hold
            exact Or.inl hold
        · exact Or.inr ⟨i', idxs', List.mem_cons_of_mem _ hmem, hps', hval⟩

theorem get_mlm_masksAux_ok {sampler : List ℕ → ℕ → List ℕ} {p : ℚ}
    {mvs : Option (List (List Bool))} (hp0 : 0 < p) (hp1 : p ≤ 1) :
    ∀ (l : List (ℕ × String)) (d : List (String × List ℕ)),
      ∃ d', get_mlm_masksAux sampler p mvs l d = .ok d' := by
  intro l
  induction l with
  | nil => exact fun d => ⟨d, rfl⟩
  | cons hd rest ih =>
    obtain ⟨i, s⟩ := hd
    intro d
    cases hls : dictLookup d s with
    | some w =>
      obtain ⟨d', hd'⟩ := ih d
      exact ⟨d', by simp only [get_mlm_masksAux, hls]; exact hd'⟩
    | none =>
      have hguard : 0 ≤ n_resds_mask (candIdxs mvs i s).length p ∧
          (n_resds_mask (candIdxs mvs i s).length p).toNat ≤ (candIdxs mvs i s).length :=
        ⟨n_resds_mask_nonneg _ p hp0,
         Int.toNat_le.mpr (n_resds_mask_le _ p hp0 hp1)⟩
      have hps : pySample sampler (candIdxs mvs i s) (n_resds_mask (candIdxs mvs i s).length p) =
          .ok (sampler (candIdxs mvs i s) (n_resds_mask (candIdxs mvs i s).length p).toNat) := by
        rw [pySample, if_pos hguard]
      obtain ⟨d', hd'⟩ :=
        ih (d ++ [(s, setOnes (List.replicate s.length 0)
          (sampler (candIdxs mvs i s) (n_resds_mask (candIdxs mvs i s).length p).toNat))])
      refine ⟨d', ?_⟩
      simp only [get_mlm_masksAux, hls, hps]
      exact hd'

theorem get_mlm_masksAux_mem {sampler : List ℕ → ℕ → List ℕ} {p : ℚ}
    {mvs : Option (List (List Bool))} :
    ∀ {l : List (ℕ × String)} {d d' : List (String × List ℕ)},
      get_mlm_masksAux sampler p mvs l d = .ok d' →
      ∀ {i : ℕ} {s : String}, (i, s) ∈ l → ∃ v, dictLookup d' s = some v := by
  intro l
  induction l with
  | nil =>
    intro d d' h i s hmem
    cases hmem
  | cons hd rest ih =>
    obtain ⟨j, t⟩ := hd
    intro d d' h i s hmem
    cases hlt : dictLookup d t with
    | some w =>
      simp only [get_mlm_masksAux, hlt] at h
      rcases List.mem_cons.mp hmem with heq | hmem'
      · cases heq
        exact ⟨w, get_mlm_masksAux_mono h hlt⟩
      · exact ih h hmem'
    | none =>
      simp only [get_mlm_masksAux, hlt] at h
      cases hps : pySample sampler (candIdxs mvs j t)
          (n_resds_mask (candIdxs mvs j t).length p) with
      | error e =>
        simp only [hps] at h
        cases h
      | ok idxs =>
        simp only [hps] at h
        rcases List.mem_cons.mp hmem with heq | hmem'
        · cases heq
          exact ⟨_, get_mlm_masksAux_mono h (dictLookup_append_self _ hlt)⟩
        · exact ih h hmem'

theorem get_mlm_masksAux_find {sampler : List ℕ → ℕ → List ℕ} {p : ℚ}
    {mvs : Option (List (List Bool))} :
    ∀ {l : List (ℕ × String)} {d d' : List (String × List ℕ)} {i : ℕ} {s : String},
      get_mlm_masksAux sampler p mvs l d = .ok d' →
      l.find? (fun q => q.2 == s) = some (i, s) →
      dictLookup d s = none →
      ∃ idxs,
        pySample sampler (candIdxs mvs i s) (n_resds_mask (candIdxs mvs i s).length p) =
          .ok idxs ∧
        dictLookup d' s = some (setOnes (List.replicate s.length 0) idxs) := by
  intro l
  induction l with
  | nil =>
    intro d d' i s h hfind hds
    simp [List.find?] at hfind
  | cons hd rest ih =>
    obtain ⟨j, t⟩ := hd
    intro d d' i s h hfind hds
    rw [List.find?_cons] at hfind
    by_cases hts : t = s
    · subst hts
      simp only [beq_self_eq_true] at hfind
      cases hfind
      cases hlt : dictLookup d t with
      | some w => rw [hlt] at hds; cases hds
      | none =>
        simp only [get_mlm_masksAux, hlt] at h
        cases hps : pySample sampler (candIdxs mvs j t)
            (n_resds_mask (candIdxs mvs j t).length p) with
        | error e =>
          simp only [hps] at h
          cases h
        | ok idxs =>
          simp only [hps] at h
          exact ⟨idxs, rfl, get_mlm_masksAux_mono h (dictLookup_append_self _ hlt)⟩
    · have hbeq : (t == s) = false := beq_eq_false_iff_ne.mpr hts
      rw [hbeq] at hfind
      cases hlt : dictLookup d t with
      | some w =>
        simp only [get_mlm_masksAux, hlt] at h
        exact ih h hfind hds
      | none =>
        simp only [get_mlm_masksAux, hlt] at h
        cases hps : pySample sampler (candIdxs mvs j t)
            (n_resds_mask (candIdxs mvs j t).length p) with
        | error e =>
          simp only [hps] at h
          cases h
        | ok idxs =>
          simp only [hps] at h
          exact ih h hfind (by rw [dictLookup_append_other _ (fun hh => hts hh.symm), hds])

theorem get_mlm_masksAux_err {sampler : List ℕ → ℕ → List ℕ} {p : ℚ}
    {mvs : Option (List (List Bool))} :
    ∀ {l : List (ℕ × String)} {d : List (String × List ℕ)} {i : ℕ} {s : String},
      l.find? (fun q => q.2 == s) = some (i, s) →
      dictLookup d s = none →
      ((candIdxs mvs i s).length : ℤ) < n_resds_mask (candIdxs mvs i s).length p →
      get_mlm_masksAux sampler p mvs l d = .error .valueError := by
  intro l
  induction l with
  | nil =>
    intro d i s hfind hds hlt
    simp [List.find?] at hfind
  | cons hd rest ih =>
    obtain ⟨j, t⟩ := hd
    intro d i s hfind hds hlt
    rw [List.find?_cons] at hfind
    by_cases hts : t = s
    · subst hts
      simp only [beq_self_eq_true] at hfind
      cases hfind
      have hguard : ¬ (0 ≤ n_resds_mask (candIdxs mvs j t).length p ∧
          (n_resds_mask (candIdxs mvs j t).length p).toNat ≤ (candIdxs mvs j t).length) := by
        rintro ⟨-, h2⟩
        exact absurd (Int.toNat_le.mp h2) (not_le.mpr hlt)
      have hps : pySample sampler (candIdxs mvs j t)
          (n_resds_mask (candIdxs mvs j t).length p) = .error .valueError := by
        rw [pySample, if_neg hguard]
      simp only [get_mlm_masksAux, hds, hps]
    · have hbeq : (t == s) = false := beq_eq_false_iff_ne.mpr hts
      rw [hbeq] at hfind
      cases hlu : dictLookup d t with
      | some w =>
        simp only [get_mlm_masksAux, hlu]
        exact ih hfind hds hlt
      | none =>
        simp only [get_mlm_masksAux, hlu]
        cases hps : pySample sampler (candIdxs mvs j t)
            (n_resds_mask (candIdxs mvs j t).length p) with
        | error e =>
          simp only [hps]
          rw [pySample_error hps]
        | ok idxs =>
          simp only [hps]
          exact ih hfind (by rw [dictLookup_append_other _ (fun hh => hts hh.symm), hds]) hlt

theorem get_mlm_masksAux_agree {sampler : List ℕ → ℕ → List ℕ} {p : ℚ}
    {mvs mvs' : List (List Bool)} :
    ∀ {l : List (ℕ × String)} {d : List (String × List ℕ)},
      (∀ i s, (i, s) ∈ l → dictLookup d s = none →
        (l.find? (fun q => q.2 == s)).map Prod.fst = some i →
        mvs.getD i [] = mvs'.getD i []) →
      get_mlm_masksAux sampler p (some mvs) l d =
        get_mlm_masksAux sampler p (some mvs') l d := by
  intro l
  induction l with
  | nil => intro d hH; rfl
  | cons hd rest ih =>
    obtain ⟨j, t⟩ := hd
    intro d hH
    cases hlt : dictLookup d t with
    | some w =>
      simp only [get_mlm_masksAux, hlt]
      apply ih
      intro i s hmem hds hfind
      have hst : t ≠ s := by
        intro hh
        rw [hh, hds] at hlt
        cases hlt
      refine hH i s (List.mem_cons_of_mem _ hmem) hds ?_
      rw [List.find?_cons, beq_eq_false_iff_ne.mpr hst]
      exact hfind
    | none =>
      have hjt : mvs.getD j [] = mvs'.getD j [] := by
        refine hH j t (List.mem_cons_self _ _) hlt ?_
        rw [List.find?_cons, beq_self_eq_true]
        rfl
      have hcand : candIdxs (some mvs) j t = candIdxs (some mvs') j t := by
        show nonzeroIdxs (mvs.getD j []) = nonzeroIdxs (mvs'.getD j [])
        rw [hjt]
      simp only [get_mlm_masksAux, hlt, hcand]
      cases hps : pySample sampler (candIdxs (some mvs') j t)
          (n_resds_mask (candIdxs (some mvs') j t).length p) with
      | error e => simp only [hps]
      | ok idxs =>
        simp only [hps]
        apply ih
        intro i s hmem hds hfind
        have hst : t ≠ s := by
          intro hh
          subst hh
          rw [dictLookup_append_self _ hlt] at hds
          cases hds
        rw [dictLookup_append_other _ (fun hh => hst hh.symm)] at hds
        refine hH i s (List.mem_cons_of_mem _ hmem) hds ?_
        rw [List.find?_cons, beq_eq_false_iff_ne.mpr hst]
        exact hfind

/-! ### Enumeration lemmas -/

theorem enumFrom_find_firstOcc :
    ∀ (seqs : List String) (n i : ℕ), i < seqs.length →
      (∀ j, j < i → seqs.getD j "" ≠ seqs.getD i "") →
      (List.enumFrom n seqs).find? (fun q => q.2 == seqs.getD i "") =
        some (n + i, seqs.getD i "") := by
  intro seqs
  induction seqs with
  | nil =>
    intro n i hi
    simp at hi
  | cons a rest ih =>
    intro n i hi hfirst
    cases i with
    | zero =>
      rw [List.enumFrom_cons, List.find?_cons]
      simp [List.getD]
    | succ i =>
      have htarget : (a :: rest).getD (i + 1) "" = rest.getD i "" := by
        simp [List.getD]
      have hne : a ≠ rest.getD i "" := by
        have := hfirst 0 (Nat.succ_pos _)
        simpa [List.getD] using this
      rw [List.enumFrom_cons, List.find?_cons, htarget]
      rw [beq_eq_false_iff_ne.mpr hne]
      have hrec := ih (n + 1) i (by simp only [List.length_cons] at hi; omega)
        (fun j hj => by
          have := hfirst (j + 1) (Nat.succ_lt_succ hj)
          simpa [List.getD] using this)
      rw [hrec]
      have harith : n + 1 + i = n + (i + 1) := by omega
      rw [harith]

theorem mem_enum_of_getD {seqs : List String} {i : ℕ} (hi : i < seqs.length) :
    (i, seqs.getD i "") ∈ seqs.enum := by
  rw [List.mk_mem_enum_iff_getElem?, List.getElem?_eq_getElem hi]
  rw [List.getD_eq_getElem _ _ hi]

/-! ### Flatten segment extraction -/

theorem flatten_extract :
    ∀ (segs : List (List ℕ)) (k : ℕ), k < segs.length →
      ((segs.flatten).drop (((segs.take k).map List.length).sum)).take
          (segs.getD k []).length = segs.getD k [] := by
  intro segs
  induction segs with
  | nil =>
    intro k hk
    simp at hk
  | cons v rest ih =>
    intro k hk
    cases k with
    | zero =>
      simp [List.getD, List.take_append_of_le_length]
    | succ k =>
      have hgetD : (v :: rest).getD (k + 1) [] = rest.getD k [] := by
        simp [List.getD]
      have htake : (v :: rest).take (k + 1) = v :: rest.take k := rfl
      rw [hgetD, htake, List.flatten_cons]
      have hsum : ((v :: rest.take k).map List.length).sum =
          v.length + ((rest.take k).map List.length).sum := by
        simp
      rw [hsum, List.drop_append]
      exact ih k (by simp only [List.length_cons] at hk; omega)

/-- C1: for every input sequence list and mask probability `p ∈ (0,1]`, the
mask vector that `get_mlm_masks` generates for a sequence (its entry in the
content-keyed dictionary, which is also its segment of the concatenated
output) has exactly `int(n_candidates * p + 0.5)` ones, where `n_candidates`
is the number of eligible positions at the sequence's first occurrence (all
positions when no eligibility vectors are given); the call succeeds, so a
zero count is valid output, not an error. -/
theorem mlm_mask_count_exact
    (sampler : List ℕ → ℕ → List ℕ) (p : ℚ) (aa_seqs : List String)
    (mask_vecs : Option (List (List Bool)))
    (hs : ValidSampler sampler) (hp0 : 0 < p) (hp1 : p ≤ 1)
    (hwf : ∀ mvs, mask_vecs = some mvs →
      ∀ i, i < aa_seqs.length → (mvs.getD i []).length = (aa_seqs.getD i "").length)
    (i : ℕ) (hi : i < aa_seqs.length)
    (hfirst : ∀ j, j < i → aa_seqs.getD j "" ≠ aa_seqs.getD i "") :
    ∃ d v,
      get_mlm_masksAux sampler p mask_vecs aa_seqs.enum [] = .ok d ∧
      get_mlm_masks sampler aa_seqs p mask_vecs = .ok (maskSegments d aa_seqs).flatten ∧
      dictLookup d (aa_seqs.getD i "") = some v ∧
      (maskSegments d aa_seqs).getD i [] = v ∧
      v.length = (aa_seqs.getD i "").length ∧
      v.count 1 =
        (n_resds_mask (candIdxs mask_vecs i (aa_seqs.getD i "")).length p).toNat := by
  obtain ⟨d, hd⟩ := get_mlm_masksAux_ok hp0 hp1 aa_seqs.enum []
  have hfind : aa_seqs.enum.find? (fun q => q.2 == aa_seqs.getD i "") =
      some (i, aa_seqs.getD i "") := by
    have := enumFrom_find_firstOcc aa_seqs 0 i hi hfirst
    simpa [List.enum] using this
  obtain ⟨idxs, hps, hdv⟩ := get_mlm_masksAux_find hd hfind rfl
  obtain ⟨hk0, hkle, hidxs⟩ := pySample_ok_elim hps
  have hvs := hs (candIdxs mask_vecs i (aa_seqs.getD i ""))
    (n_resds_mask (candIdxs mask_vecs i (aa_seqs.getD i "")).length p).toNat
    (candIdxs_nodup _ _ _) hkle
  have hbound : ∀ x ∈ idxs, x < (aa_seqs.getD i "").length := by
    intro x hx
    have hxc : x ∈ candIdxs mask_vecs i (aa_seqs.getD i "") := by
      rw [hidxs] at hx
      exact hvs.2.2 x hx
    cases hmv : mask_vecs with
    | none =>
      rw [hmv] at hxc
      exact candIdxs_lt_none i _ x hxc
    | some mvs =>
      rw [hmv] at hxc
      exact candIdxs_lt_some mvs i _ (hwf mvs hmv i hi) x hxc
  have hnd : idxs.Nodup := by
    rw [hidxs]
    exact hvs.2.1
  refine ⟨d, setOnes (List.replicate (aa_seqs.getD i "").length 0) idxs, hd, ?_, hdv, ?_, ?_, ?_⟩
  · simp only [get_mlm_masks, hd]
  · rw [maskSegments]
    have hmlen : i < (aa_seqs.map (fun s => (dictLookup d s).getD [])).length := by
      simpa using hi
    rw [List.getD_eq_getElem _ _ hmlen, List.getElem_map]
    rw [← List.getD_eq_getElem _ "" hi, hdv]
    rfl
  · rw [setOnes_length, List.length_replicate]
  · rw [setOnes_count _ _ hnd hbound, hidxs]
    exact hvs.1

/-- C1 witness: a concrete three-sequence call with `p = 1/2`; the duplicate
"AC" gets one flagged position out of two and "G" (first occurrence at index
2, one candidate) gets `int(0.5 + 0.5) = 1`. -/
theorem mlm_mask_count_exact_witness :
    ∃ d v,
      get_mlm_masksAux takeSampler (1 / 2) none ["AC", "AC", "G"].enum [] = .ok d ∧
      get_mlm_masks takeSampler ["AC", "AC", "G"] (1 / 2) none =
        .ok (maskSegments d ["AC", "AC", "G"]).flatten ∧
      dictLookup d (["AC", "AC", "G"].getD 2 "") = some v ∧
      (maskSegments d ["AC", "AC", "G"]).getD 2 [] = v ∧
      v.length = (["AC", "AC", "G"].getD 2 "").length ∧
      v.count 1 =
        (n_resds_mask (candIdxs none 2 (["AC", "AC", "G"].getD 2 "")).length (1 / 2)).toNat :=
  mlm_mask_count_exact takeSampler (1 / 2) ["AC", "AC", "G"] none takeSampler_valid
    (by norm_num) (by norm_num) (fun mvs hmvs => by cases hmvs) 2 (by decide)
    (by decide)

/-- C2: within one `get_mlm_masks` call, two occurrences of the same sequence
string receive bit-identical mask vectors: the concatenated output decomposes
into per-occurrence segments whose lengths match the sequences, the segments
of equal strings are equal, and the slices of the output at the two
occurrences' positions coincide. -/
theorem mlm_mask_duplicates_identical
    (sampler : List ℕ → ℕ → List ℕ) (p : ℚ) (aa_seqs : List String)
    (mask_vecs : Option (List (List Bool))) (out : List ℕ)
    (hok : get_mlm_masks sampler aa_seqs p mask_vecs = .ok out)
    (j k : ℕ) (hj : j < aa_seqs.length) (hk : k < aa_seqs.length)
    (heq : aa_seqs.getD j "" = aa_seqs.getD k "") :
    ∃ segs : List (List ℕ),
      out = segs.flatten ∧
      segs.length = aa_seqs.length ∧
      (∀ m, m < aa_seqs.length → (segs.getD m []).length = (aa_seqs.getD m "").length) ∧
      segs.getD j [] = segs.getD k [] ∧
      (out.drop (((aa_seqs.take j).map String.length).sum)).take
          (aa_seqs.getD j "").length =
        (out.drop (((aa_seqs.take k).map String.length).sum)).take
          (aa_seqs.getD k "").length := by
  cases haux : get_mlm_masksAux sampler p mask_vecs aa_seqs.enum [] with
  | error e =>
    rw [get_mlm_masks, haux] at hok
    cases hok
  | ok d =>
    rw [get_mlm_masks, haux] at hok
    cases hok
    have hlen_segs : (maskSegments d aa_seqs).length = aa_seqs.length := by
      rw [maskSegments, List.length_map]
    have hseg_getD : ∀ m, m < aa_seqs.length →
        (maskSegments d aa_seqs).getD m [] = (dictLookup d (aa_seqs.getD m "")).getD [] := by
      intro m hm
      have hms : m < (maskSegments d aa_seqs).length := by rw [hlen_segs]; exact hm
      rw [List.getD_eq_getElem _ _ hms]
      have hel : (maskSegments d aa_seqs)[m] = (dictLookup d aa_seqs[m]).getD [] := by
        simp [maskSegments]
      rw [hel, ← List.getD_eq_getElem _ "" hm]
    have hlook : ∀ m, m < aa_seqs.length → ∃ v,
        dictLookup d (aa_seqs.getD m "") = some v ∧
        v.length = (aa_seqs.getD m "").length := by
      intro m hm
      obtain ⟨v, hv⟩ := get_mlm_masksAux_mem haux (mem_enum_of_getD hm)
      rcases get_mlm_masksAux_entries haux hv with h0 | ⟨i', idxs, hmem, hps, hval⟩
      · cases h0
      · exact ⟨v, hv, by rw [hval, setOnes_length, List.length_replicate]⟩
    have hlen_m : ∀ m, m < aa_seqs.length →
        ((maskSegments d aa_seqs).getD m []).length = (aa_seqs.getD m "").length := by
      intro m hm
      obtain ⟨v, hv, hvl⟩ := hlook m hm
      rw [hseg_getD m hm, hv]
      exact hvl
    have hjk : (maskSegments d aa_seqs).getD j [] = (maskSegments d aa_seqs).getD k [] := by
      rw [hseg_getD j hj, hseg_getD k hk, heq]
    have hmapeq : (maskSegments d aa_seqs).map List.length = aa_seqs.map String.length := by
      apply List.ext_getElem
      · rw [List.length_map, List.length_map, hlen_segs]
      · intro m h1 h2
        have hm : m < aa_seqs.length := by simpa using h2
        have hms : m < (maskSegments d aa_seqs).length := by rw [hlen_segs]; exact hm
        rw [List.getElem_map, List.getElem_map]
        have h' := hlen_m m hm
        rw [List.getD_eq_getElem _ _ hms, List.getD_eq_getElem _ "" hm] at h'
        exact h'
    have hsum : ∀ m : ℕ, ((aa_seqs.take m).map String.length).sum =
        (((maskSegments d aa_seqs).take m).map List.length).sum := by
      intro m
      rw [List.map_take, List.map_take, hmapeq]
    have hjs : j < (maskSegments d aa_seqs).length := by rw [hlen_segs]; exact hj
    have hks : k < (maskSegments d aa_seqs).length := by rw [hlen_segs]; exact hk
    refine ⟨maskSegments d aa_seqs, rfl, hlen_segs, hlen_m, hjk, ?_⟩
    rw [hsum j, hsum k, ← hlen_m j hj, ← hlen_m k hk]
    rw [flatten_extract (maskSegments d aa_seqs) j hjs,
      flatten_extract (maskSegments d aa_seqs) k hks]
    exact hjk

theorem n_resds_mask_two_half : n_resds_mask 2 (1 / 2) = 1 := by
  have hcond : (0 : ℚ) ≤ (2 : ℕ) * (1 / 2) + 1 / 2 := by positivity
  rw [n_resds_mask, pyInt, if_pos hcond]
  push_cast
  norm_num

theorem get_mlm_masks_run_ACAC :
    get_mlm_masks takeSampler ["AC", "AC"] (1 / 2) none = .ok [1, 0, 1, 0] := by
  have henum : (["AC", "AC"] : List String).enum = [(0, "AC"), (1, "AC")] := by decide
  have e1 : candIdxs none 0 "AC" = [0, 1] := by decide
  have e2 : pySample takeSampler [0, 1] (n_resds_mask ([0, 1] : List ℕ).length (1 / 2)) =
      .ok [0] := by
    have hk : n_resds_mask ([0, 1] : List ℕ).length (1 / 2) = 1 := n_resds_mask_two_half
    rw [hk, pySample, if_pos (by norm_num)]
    rfl
  have hstep : get_mlm_masksAux takeSampler (1 / 2) none [(0, "AC"), (1, "AC")] [] =
      .ok [("AC", [1, 0])] := by
    have e3 : setOnes (List.replicate ("AC".length) 0) [0] = [1, 0] := by decide
    simp only [get_mlm_masksAux, dictLookup, e1, e2, e3]
    decide
  rw [get_mlm_masks, henum, hstep]
  decide

/-- C2 witness: the batch `["AC", "AC"]` with `p = 1/2` produces
`[1, 0, 1, 0]`; the two occurrences give the identical segment `[1, 0]`. -/
theorem mlm_mask_duplicates_identical_witness :
    ∃ segs : List (List ℕ),
      ([1, 0, 1, 0] : List ℕ) = segs.flatten ∧
      segs.length = (["AC", "AC"] : List String).length ∧
      (∀ m, m < (["AC", "AC"] : List String).length →
        (segs.getD m []).length = ((["AC", "AC"] : List String).getD m "").length) ∧
      segs.getD 0 [] = segs.getD 1 [] ∧
      (([1, 0, 1, 0] : List ℕ).drop
            ((((["AC", "AC"] : List String).take 0).map String.length).sum)).take
          ((["AC", "AC"] : List String).getD 0 "").length =
        (([1, 0, 1, 0] : List ℕ).drop
            ((((["AC", "AC"] : List String).take 1).map String.length).sum)).take
          ((["AC", "AC"] : List String).getD 1 "").length :=
  mlm_mask_duplicates_identical takeSampler (1 / 2) ["AC", "AC"] none [1, 0, 1, 0]
    get_mlm_masks_run_ACAC 0 1 (by decide) (by decide) (by decide)

/-- C7: when a supplied candidate-eligibility vector leaves fewer eligible
positions than the requested mask count at a sequence's first occurrence,
`get_mlm_masks` aborts the whole call with `random.sample`'s invalid-input
`ValueError` and returns no partial result. -/
theorem mlm_mask_insufficient_candidates_error
    (sampler : List ℕ → ℕ → List ℕ) (p : ℚ) (aa_seqs : List String)
    (mvs : List (List Bool)) (i : ℕ) (hi : i < aa_seqs.length)
    (hfirst : ∀ j, j < i → aa_seqs.getD j "" ≠ aa_seqs.getD i "")
    (hlt : ((candIdxs (some mvs) i (aa_seqs.getD i "")).length : ℤ) <
      n_resds_mask (candIdxs (some mvs) i (aa_seqs.getD i "")).length p) :
    get_mlm_masks sampler aa_seqs p (some mvs) = .error .valueError := by
  have hfind : aa_seqs.enum.find? (fun q => q.2 == aa_seqs.getD i "") =
      some (i, aa_seqs.getD i "") := by
    have := enumFrom_find_firstOcc aa_seqs 0 i hi hfirst
    simpa [List.enum] using this
  have herr : get_mlm_masksAux sampler p (some mvs) aa_seqs.enum [] =
      .error .valueError :=
    get_mlm_masksAux_err hfind rfl hlt
  rw [get_mlm_masks, herr]

/-- C7 witness: a single sequence "A" with eligibility vector `[true]` (one
candidate) and `p = 2` requests `int(1*2 + 0.5) = 2 > 1` masks, so the call
fails with `ValueError`. -/
theorem mlm_mask_insufficient_candidates_error_witness :
    get_mlm_masks takeSampler ["A"] 2 (some [[true]]) = .error .valueError :=
  mlm_mask_insufficient_candidates_error takeSampler 2 ["A"] [[true]] 0 (by decide)
    (fun j hj => absurd hj (by omega))
    (by
      have hc : candIdxs (some [[true]]) 0 ((["A"] : List String).getD 0 "") = [0] := by decide
      rw [hc]
      have hcond : (0 : ℚ) ≤ (([0] : List ℕ).length : ℚ) * 2 + 1 / 2 := by positivity
      rw [n_resds_mask, pyInt, if_pos hcond]
      norm_num)

/-- C8: for every mask probability `p ∈ (0,1]` the computed mask count
`int(n * p + 0.5)` is nonnegative and never exceeds the candidate count `n`,
so the sampling step of `get_mlm_masks` cannot fail for lack of candidates:
every call returns a mask vector. -/
theorem mlm_mask_count_le_candidates
    (sampler : List ℕ → ℕ → List ℕ) (p : ℚ) (aa_seqs : List String)
    (mask_vecs : Option (List (List Bool))) (hp0 : 0 < p) (hp1 : p ≤ 1) :
    (∀ n : ℕ, 0 ≤ n_resds_mask n p ∧ n_resds_mask n p ≤ (n : ℤ)) ∧
    ∃ out, get_mlm_masks sampler aa_seqs p mask_vecs = .ok out := by
  constructor
  · exact fun n => ⟨n_resds_mask_nonneg n p hp0, n_resds_mask_le n p hp0 hp1⟩
  · obtain ⟨d, hd⟩ := get_mlm_masksAux_ok hp0 hp1 aa_seqs.enum []
    exact ⟨(maskSegments d aa_seqs).flatten, by rw [get_mlm_masks, hd]⟩

/-- C8 witness: with `p = 1/2` the count bound holds and a call on
`["AC", "AC"]` succeeds. -/
theorem mlm_mask_count_le_candidates_witness :
    (∀ n : ℕ, 0 ≤ n_resds_mask n (1 / 2) ∧ n_resds_mask n (1 / 2) ≤ (n : ℤ)) ∧
    ∃ out, get_mlm_masks takeSampler ["AC", "AC"] (1 / 2) none = .ok out :=
  mlm_mask_count_le_candidates takeSampler (1 / 2) ["AC", "AC"] none (by norm_num)
    (by norm_num)

/-- C9: only the eligibility vector at a sequence string's first occurrence
index is consulted: two `get_mlm_masks` calls whose eligibility lists agree
at every first-occurrence index (and may differ arbitrarily at indices of
later duplicate occurrences) return identical results. -/
theorem mlm_mask_later_eligibility_ignored
    (sampler : List ℕ → ℕ → List ℕ) (p : ℚ) (aa_seqs : List String)
    (mvs mvs' : List (List Bool))
    (hagree : ∀ i, i < aa_seqs.length →
      (∀ j, j < i → aa_seqs.getD j "" ≠ aa_seqs.getD i "") →
      mvs.getD i [] = mvs'.getD i []) :
    get_mlm_masks sampler aa_seqs p (some mvs) =
      get_mlm_masks sampler aa_seqs p (some mvs') := by
  have haux : get_mlm_masksAux sampler p (some mvs) aa_seqs.enum [] =
      get_mlm_masksAux sampler p (some mvs') aa_seqs.enum [] := by
    apply get_mlm_masksAux_agree
    intro i s hmem hds hfind
    have hgetElem : aa_seqs[i]? = some s := List.mk_mem_enum_iff_getElem?.mp hmem
    have hilen : i < aa_seqs.length := by
      by_contra hcon
      rw [List.getElem?_eq_none (Nat.le_of_not_lt hcon)] at hgetElem
      cases hgetElem
    have hgetD : aa_seqs.getD i "" = s := by
      rw [List.getD_eq_getElem?_getD, hgetElem]
      rfl
    have hex : ∃ m, m < aa_seqs.length ∧ aa_seqs.getD m "" = s := ⟨i, hilen, hgetD⟩
    have hspec := Nat.find_spec hex
    have hle : Nat.find hex ≤ i := Nat.find_min' hex ⟨hilen, hgetD⟩
    have hfo : ∀ j, j < Nat.find hex →
        aa_seqs.getD j "" ≠ aa_seqs.getD (Nat.find hex) "" := by
      intro j hj hcon
      have hnot := Nat.find_min hex hj
      exact hnot ⟨Nat.lt_of_lt_of_le (Nat.lt_of_lt_of_le hj hle) hilen.le, by
        rw [hcon, hspec.2]⟩
    have hfind0 := enumFrom_find_firstOcc aa_seqs 0 (Nat.find hex) hspec.1 hfo
    have hfind0s : aa_seqs.enum.find? (fun q => q.2 == s) =
        some (Nat.find hex, s) := by
      rw [hspec.2] at hfind0
      simpa [List.enum] using hfind0
    rw [hfind0s] at hfind
    have hieq : Nat.find hex = i := by
      simpa using hfind
    rw [← hieq]
    exact hagree (Nat.find hex) hspec.1 hfo
  rw [get_mlm_masks, get_mlm_masks, haux]

/-- C9 witness: in `["AC", "AC"]` only index 0 is a first occurrence; the two
eligibility lists agree there and differ at the duplicate index 1, yet the
calls coincide. -/
theorem mlm_mask_later_eligibility_ignored_witness :
    get_mlm_masks takeSampler ["AC", "AC"] (1 / 2)
        (some [[true, true], [false, false]]) =
      get_mlm_masks takeSampler ["AC", "AC"] (1 / 2)
        (some [[true, true], [true, true]]) :=
  mlm_mask_later_eligibility_ignored takeSampler (1 / 2) ["AC", "AC"]
    [[true, true], [false, false]] [[true, true], [true, true]] (by decide)

/-- C3: each position of `apply_mlm_masks` is the three-way corruption of its
original token: with mask nonzero and draw `r < 0.8` it becomes the
mask-token index, with `r > 0.9` it becomes the alphabet index of the token
drawn from the 20 standard residue types, with `r ∈ [0.8, 0.9]` or with mask
zero it stays the original; the three masked-position branches are mutually
exclusive and jointly exhaustive. -/
theorem mlm_corruption_three_way_partition
    (alphabet : Alphabet) (tokn_mat_orig mask_mat : List (List ℤ))
    (prob_mat : List (List ℚ)) (toks : List String)
    (hrect : ∀ row ∈ tokn_mat_orig, row.length = (tokn_mat_orig.headD []).length)
    (hlen : toks.length = tokn_mat_orig.length * (tokn_mat_orig.headD []).length)
    (htoks : ∀ t ∈ toks, t ∈ RESD_NAMES_1C)
    (i j : ℕ) (hi : i < tokn_mat_orig.length)
    (hj : j < (tokn_mat_orig.getD i []).length) :
    ((apply_mlm_masks alphabet tokn_mat_orig mask_mat prob_mat toks).getD i []).getD j 0 =
      apply_mlm_masksEntry alphabet ((tokn_mat_orig.getD i []).getD j 0)
        ((mask_mat.getD i []).getD j 0) ((prob_mat.getD i []).getD j 0)
        (toks.getD (i * (tokn_mat_orig.headD []).length + j) "") ∧
    toks.getD (i * (tokn_mat_orig.headD []).length + j) "" ∈ RESD_NAMES_1C ∧
    (∀ (orig m : ℤ) (r : ℚ) (tok : String),
      (m ≠ 0 → r < 4 / 5 → apply_mlm_masksEntry alphabet orig m r tok = alphabet.mask_idx) ∧
      (m ≠ 0 → r > 9 / 10 →
        apply_mlm_masksEntry alphabet orig m r tok = alphabet.get_idx tok) ∧
      (m ≠ 0 → 4 / 5 ≤ r → r ≤ 9 / 10 → apply_mlm_masksEntry alphabet orig m r tok = orig) ∧
      (m = 0 → apply_mlm_masksEntry alphabet orig m r tok = orig) ∧
      ((r < 4 / 5 ∧ ¬ r > 9 / 10 ∧ ¬ (4 / 5 ≤ r ∧ r ≤ 9 / 10)) ∨
       (¬ r < 4 / 5 ∧ r > 9 / 10 ∧ ¬ (4 / 5 ≤ r ∧ r ≤ 9 / 10)) ∨
       (¬ r < 4 / 5 ∧ ¬ r > 9 / 10 ∧ (4 / 5 ≤ r ∧ r ≤ 9 / 10)))) := by
  have hjh : j < (tokn_mat_orig.headD []).length := by
    have hrow := hrect _ (List.getElem_mem (l := tokn_mat_orig) (n := i) hi)
    rw [List.getD_eq_getElem _ _ hi] at hj
    rw [← hrow]
    exact hj
  have hidx : i * (tokn_mat_orig.headD []).length + j < toks.length := by
    rw [hlen]
    calc i * (tokn_mat_orig.headD []).length + j
        < i * (tokn_mat_orig.headD []).length + (tokn_mat_orig.headD []).length := by omega
      _ = (i + 1) * (tokn_mat_orig.headD []).length := by ring
      _ ≤ tokn_mat_orig.length * (tokn_mat_orig.headD []).length :=
          Nat.mul_le_mul_right _ hi
  refine ⟨?_, ?_, ?_⟩
  · have h1 : i < (apply_mlm_masks alphabet tokn_mat_orig mask_mat prob_mat toks).length := by
      simp [apply_mlm_masks]
      exact hi
    rw [List.getD_eq_getElem _ _ h1]
    have h2 : (apply_mlm_masks alphabet tokn_mat_orig mask_mat prob_mat toks)[i] =
        (tokn_mat_orig[i]).enum.map (fun q =>
          apply_mlm_masksEntry alphabet q.2
            ((mask_mat.getD i []).getD q.1 0)
            ((prob_mat.getD i []).getD q.1 0)
            (toks.getD (i * (tokn_mat_orig.headD []).length + q.1) "")) := by
      simp [apply_mlm_masks]
    rw [h2]
    have hjr : j < tokn_mat_orig[i].length := by
      rw [List.getD_eq_getElem _ _ hi] at hj
      exact hj
    have h3 : j < ((tokn_mat_orig[i]).enum.map (fun q =>
        apply_mlm_masksEntry alphabet q.2
          ((mask_mat.getD i []).getD q.1 0)
          ((prob_mat.getD i []).getD q.1 0)
          (toks.getD (i * (tokn_mat_orig.headD []).length + q.1) ""))).length := by
      simpa using hjr
    rw [List.getD_eq_getElem _ _ h3, List.getElem_map, List.getElem_enum]
    rw [List.getD_eq_getElem _ _ hi, List.getD_eq_getElem _ _ hjr]
  · have hmem : toks.getD (i * (tokn_mat_orig.headD []).length + j) "" ∈ toks := by
      rw [List.getD_eq_getElem _ _ hidx]
      exact List.getElem_mem hidx
    exact htoks _ hmem
  · intro orig m r tok
    refine ⟨?_, ?_, ?_, ?_, ?_⟩
    · intro hm hr
      rw [apply_mlm_masksEntry, if_pos ⟨hm, hr⟩]
    · intro hm hr
      have hnotpri : ¬ (m ≠ 0 ∧ r < 4 / 5) := by
        rintro ⟨-, hrlt⟩
        linarith
      rw [apply_mlm_masksEntry, if_neg hnotpri, if_pos ⟨hm, hr⟩]
    · intro hm hr1 hr2
      have hnotpri : ¬ (m ≠ 0 ∧ r < 4 / 5) := by
        rintro ⟨-, hrlt⟩
        linarith
      have hnotsec : ¬ (m ≠ 0 ∧ r > 9 / 10) := by
        rintro ⟨-, hrgt⟩
        linarith
      rw [apply_mlm_masksEntry, if_neg hnotpri, if_neg hnotsec]
    · intro hm
      have hnotpri : ¬ (m ≠ 0 ∧ r < 4 / 5) := by
        rintro ⟨hm', -⟩
        exact hm' hm
      have hnotsec : ¬ (m ≠ 0 ∧ r > 9 / 10) := by
        rintro ⟨hm', -⟩
        exact hm' hm
      rw [apply_mlm_masksEntry, if_neg hnotpri, if_neg hnotsec]
    · by_cases h1 : r < 4 / 5
      · exact Or.inl ⟨h1, by intro h; linarith, by rintro ⟨h, -⟩; linarith⟩
      · by_cases h2 : r > 9 / 10
        · exact Or.inr (Or.inl ⟨h1, h2, by rintro ⟨-, h⟩; linarith⟩)
        · exact Or.inr (Or.inr ⟨h1, h2, by constructor <;> linarith⟩)

/-- C3 witness: a concrete `1 × 2` matrix; the partition facts are
instantiated at the in-range position `(0, 1)`. -/
theorem mlm_corruption_three_way_partition_witness :
    ((apply_mlm_masks ⟨99, fun _ => 7⟩ [[1, 2]] [[1, 1]] [[0, 17 / 20]]
        ["A", "C"]).getD 0 []).getD 1 0 =
      apply_mlm_masksEntry ⟨99, fun _ => 7⟩ (([([1, 2] : List ℤ)].getD 0 []).getD 1 0)
        (([([1, 1] : List ℤ)].getD 0 []).getD 1 0)
        (([([0, 17 / 20] : List ℚ)].getD 0 []).getD 1 0)
        ((["A", "C"] : List String).getD
          (0 * (([([1, 2] : List ℤ)] : List (List ℤ)).headD []).length + 1) "") ∧
    (["A", "C"] : List String).getD
        (0 * (([([1, 2] : List ℤ)] : List (List ℤ)).headD []).length + 1) "" ∈
      RESD_NAMES_1C ∧
    (∀ (orig m : ℤ) (r : ℚ) (tok : String),
      (m ≠ 0 → r < 4 / 5 →
        apply_mlm_masksEntry ⟨99, fun _ => 7⟩ orig m r tok = (99 : ℤ)) ∧
      (m ≠ 0 → r > 9 / 10 →
        apply_mlm_masksEntry ⟨99, fun _ => 7⟩ orig m r tok = (7 : ℤ)) ∧
      (m ≠ 0 → 4 / 5 ≤ r → r ≤ 9 / 10 →
        apply_mlm_masksEntry ⟨99, fun _ => 7⟩ orig m r tok = orig) ∧
      (m = 0 → apply_mlm_masksEntry ⟨99, fun _ => 7⟩ orig m r tok = orig) ∧
      ((r < 4 / 5 ∧ ¬ r > 9 / 10 ∧ ¬ (4 / 5 ≤ r ∧ r ≤ 9 / 10)) ∨
       (¬ r < 4 / 5 ∧ r > 9 / 10 ∧ ¬ (4 / 5 ≤ r ∧ r ≤ 9 / 10)) ∨
       (¬ r < 4 / 5 ∧ ¬ r > 9 / 10 ∧ (4 / 5 ≤ r ∧ r ≤ 9 / 10)))) :=
  mlm_corruption_three_way_partition ⟨99, fun _ => 7⟩ [[1, 2]] [[1, 1]] [[0, 17 / 20]]
    ["A", "C"] (by decide) (by decide) (by decide) 0 1 (by decide) (by decide)

/-! ### Quaternion norm lemmas -/

theorem Quat.normSq_nonneg (q : Quat) : 0 ≤ q.normSq := by
  rw [Quat.normSq]
  positivity

theorem bhQuat_normSq : Quat.normSq bhQuat = 1 := by
  rw [bhQuat, Quat.normSq]
  norm_num

theorem bhQuat_norm : Quat.norm bhQuat = 1 := by
  rw [Quat.norm, bhQuat_normSq, Real.sqrt_one]

theorem Quat.normSq_neg (q : Quat) : q.neg.normSq = q.normSq := by
  rw [Quat.neg, Quat.normSq, Quat.normSq]
  ring

theorem Quat.normSq_divide (q : Quat) (c : ℝ) :
    (q.divide c).normSq = q.normSq / c ^ 2 := by
  rw [Quat.divide, Quat.normSq, Quat.normSq]
  ring

theorem canonQuat_norm_one (q : Quat) (h : q.normSq ≠ 0) : (canonQuat q).norm = 1 := by
  rw [canonQuat]
  set q1 := if q.r < 0 then q.neg else q with hq1
  have hsq : q1.normSq = q.normSq := by
    rw [hq1]
    by_cases hr : q.r < 0
    · rw [if_pos hr, Quat.normSq_neg]
    · rw [if_neg hr]
  have hpos : 0 < q1.normSq := by
    rcases lt_or_eq_of_le (Quat.normSq_nonneg q1) with hlt | heq
    · exact hlt
    · exact absurd (hsq ▸ heq.symm) h
  have hnormpos : 0 < q1.norm := by
    rw [Quat.norm]
    exact Real.sqrt_pos.mpr hpos
  rw [Quat.norm, Quat.normSq_divide]
  have hnsq : q1.norm ^ 2 = q1.normSq := Real.sq_sqrt (Quat.normSq_nonneg q1)
  rw [hnsq, div_self (ne_of_gt hpos), Real.sqrt_one]

theorem canonQuat_r_nonneg (q : Quat) (h : q.normSq ≠ 0) : 0 ≤ (canonQuat q).r := by
  rw [canonQuat]
  set q1 := if q.r < 0 then q.neg else q with hq1
  have hr1 : 0 ≤ q1.r := by
    rw [hq1]
    by_cases hr : q.r < 0
    · rw [if_pos hr]
      show (0 : ℝ) ≤ -q.r
      linarith
    · rw [if_neg hr]
      exact le_of_not_lt hr
  have hsq : q1.normSq = q.normSq := by
    rw [hq1]
    by_cases hr : q.r < 0
    · rw [if_pos hr, Quat.normSq_neg]
    · rw [if_neg hr]
  have hpos : 0 < q1.normSq := by
    rcases lt_or_eq_of_le (Quat.normSq_nonneg q1) with hlt | heq
    · exact hlt
    · exact absurd (hsq ▸ heq.symm) h
  have hnormpos : 0 ≤ q1.norm := Real.sqrt_nonneg _
  show 0 ≤ q1.r / q1.norm
  exact div_nonneg hr1 hnormpos

/-! ### Grid lemmas -/

theorem qtaGrid_getD {α : Type} [Inhabited α] (n m : ℕ) (f : ℕ → ℕ → α) (d : α)
    (i j : ℕ) (hi : i < n) (hj : j < m) :
    ((qtaGrid n m f).getD i []).getD j d = f i j := by
  rw [qtaGrid]
  have h1 : i < ((List.range n).map (fun i => (List.range m).map (fun j => f i j))).length := by
    simpa using hi
  rw [List.getD_eq_getElem _ _ h1, List.getElem_map, List.getElem_range]
  have h2 : j < ((List.range m).map (fun j => f i j)).length := by
    simpa using hj
  rw [List.getD_eq_getElem _ _ h2, List.getElem_map, List.getElem_range]

theorem init_qta_params_mode_3dcord (framFn : Resd3 → Quat × V3)
    (randQuat : ℕ → ℕ → Quat) (randTrsl : ℕ → ℕ → V3) (randAngl : ℕ → ℕ → ℕ → ℝ × ℝ)
    (n_smpls n_resds : ℕ) (cord_tns : Option (List (List Resd3)))
    (cmsk_tns : Option (List (List Cmsk3))) :
    init_qta_params framFn randQuat randTrsl randAngl n_smpls n_resds "3d-cord"
        cord_tns cmsk_tns =
      init_qta_params_3dcord framFn n_smpls n_resds cord_tns cmsk_tns := by
  rw [init_qta_params, if_neg (by decide), if_pos rfl]

/-- C5: canonical ('black-hole') mode ignores the frame function, the random
draws and the coordinate arguments entirely (hence is deterministic: two
calls, even with different random streams, return the identical value), and
for every sample and residue yields quaternion `(1,0,0,0)`, translation
`(0,0,0)` and all `N_ANGLS_PER_RESD = 7` angle pairs `(1,0)`; in particular
this holds for `n_smpls = n_resds = 1`. -/
theorem init_qta_black_hole_canonical
    (framFn framFn2 : Resd3 → Quat × V3)
    (randQuat randQuat2 : ℕ → ℕ → Quat) (randTrsl randTrsl2 : ℕ → ℕ → V3)
    (randAngl randAngl2 : ℕ → ℕ → ℕ → ℝ × ℝ)
    (n_smpls n_resds : ℕ)
    (cord_tns cord_tns2 : Option (List (List Resd3)))
    (cmsk_tns cmsk_tns2 : Option (List (List Cmsk3))) :
    init_qta_params framFn randQuat randTrsl randAngl n_smpls n_resds "black-hole"
        cord_tns cmsk_tns =
      .ok ⟨qtaGrid n_smpls n_resds (fun _ _ => bhQuat),
           qtaGrid n_smpls n_resds (fun _ _ => bhTrsl),
           qtaGrid n_smpls n_resds (fun _ _ => bhAngl)⟩ ∧
    init_qta_params framFn randQuat randTrsl randAngl n_smpls n_resds "black-hole"
        cord_tns cmsk_tns =
      init_qta_params framFn2 randQuat2 randTrsl2 randAngl2 n_smpls n_resds "black-hole"
        cord_tns2 cmsk_tns2 ∧
    bhQuat = ⟨1, 0, 0, 0⟩ ∧ bhTrsl = ⟨0, 0, 0⟩ ∧
    N_ANGLS_PER_RESD = 7 ∧ bhAngl = List.replicate 7 ((1 : ℝ), (0 : ℝ)) ∧
    (∀ out, init_qta_params framFn randQuat randTrsl randAngl n_smpls n_resds
        "black-hole" cord_tns cmsk_tns = .ok out →
      ∀ i j, i < n_smpls → j < n_resds →
        (out.quat.getD i []).getD j default = ⟨1, 0, 0, 0⟩ ∧
        (out.trsl.getD i []).getD j default = ⟨0, 0, 0⟩ ∧
        (out.angl.getD i []).getD j [] = List.replicate 7 ((1 : ℝ), (0 : ℝ))) := by
  have hbh : init_qta_params framFn randQuat randTrsl randAngl n_smpls n_resds
      "black-hole" cord_tns cmsk_tns =
      .ok ⟨qtaGrid n_smpls n_resds (fun _ _ => bhQuat),
           qtaGrid n_smpls n_resds (fun _ _ => bhTrsl),
           qtaGrid n_smpls n_resds (fun _ _ => bhAngl)⟩ := by
    rw [init_qta_params, if_pos rfl]
  have hbh2 : init_qta_params framFn2 randQuat2 randTrsl2 randAngl2 n_smpls n_resds
      "black-hole" cord_tns2 cmsk_tns2 =
      .ok ⟨qtaGrid n_smpls n_resds (fun _ _ => bhQuat),
           qtaGrid n_smpls n_resds (fun _ _ => bhTrsl),
           qtaGrid n_smpls n_resds (fun _ _ => bhAngl)⟩ := by
    rw [init_qta_params, if_pos rfl]
  refine ⟨hbh, by rw [hbh, hbh2], rfl, rfl, rfl, rfl, ?_⟩
  intro out hout i j hi hj
  rw [hbh] at hout
  cases hout
  refine ⟨?_, ?_, ?_⟩
  · exact qtaGrid_getD _ _ _ _ i j hi hj
  · exact qtaGrid_getD _ _ _ _ i j hi hj
  · exact qtaGrid_getD _ _ _ _ i j hi hj

/-- C5 witness: the claim instantiated at `n_smpls = n_resds = 1`, with two
different random streams on the two sides of the determinism equation. -/
theorem init_qta_black_hole_canonical_witness :
    init_qta_params (fun _ => (bhQuat, bhTrsl)) (fun _ _ => bhQuat)
        (fun _ _ => bhTrsl) (fun _ _ _ => (1, 0)) 1 1 "black-hole" none none =
      .ok ⟨qtaGrid 1 1 (fun _ _ => bhQuat),
           qtaGrid 1 1 (fun _ _ => bhTrsl),
           qtaGrid 1 1 (fun _ _ => bhAngl)⟩ ∧
    init_qta_params (fun _ => (bhQuat, bhTrsl)) (fun _ _ => bhQuat)
        (fun _ _ => bhTrsl) (fun _ _ _ => (1, 0)) 1 1 "black-hole" none none =
      init_qta_params (fun _ => (bhQuat.neg, bhTrsl)) (fun _ _ => bhQuat.neg)
        (fun _ _ => bhTrsl) (fun _ _ _ => (0, 1)) 1 1 "black-hole" none none ∧
    bhQuat = ⟨1, 0, 0, 0⟩ ∧ bhTrsl = ⟨0, 0, 0⟩ ∧
    N_ANGLS_PER_RESD = 7 ∧ bhAngl = List.replicate 7 ((1 : ℝ), (0 : ℝ)) ∧
    (∀ out, init_qta_params (fun _ => (bhQuat, bhTrsl)) (fun _ _ => bhQuat)
        (fun _ _ => bhTrsl) (fun _ _ _ => (1, 0)) 1 1 "black-hole" none none = .ok out →
      ∀ i j, i < 1 → j < 1 →
        (out.quat.getD i []).getD j default = ⟨1, 0, 0, 0⟩ ∧
        (out.trsl.getD i []).getD j default = ⟨0, 0, 0⟩ ∧
        (out.angl.getD i []).getD j [] = List.replicate 7 ((1 : ℝ), (0 : ℝ))) :=
  init_qta_black_hole_canonical (fun _ => (bhQuat, bhTrsl)) (fun _ => (bhQuat.neg, bhTrsl))
    (fun _ _ => bhQuat) (fun _ _ => bhQuat.neg) (fun _ _ => bhTrsl) (fun _ _ => bhTrsl)
    (fun _ _ _ => (1, 0)) (fun _ _ _ => (0, 1)) 1 1 none none none none

/-- C4: in coordinate-derived ('3d-cord') mode, each residue whose three
atom-validity flags do not all hold receives exactly the canonical quaternion
`(1,0,0,0)` and translation `(0,0,0)` regardless of its coordinates, while a
residue whose three flags all hold receives the coordinate-derived
quaternion and translation; the fallback is decided per residue, so one
sample may mix both kinds. -/
theorem init_qta_3dcord_per_residue_fallback
    (framFn : Resd3 → Quat × V3)
    (randQuat : ℕ → ℕ → Quat) (randTrsl : ℕ → ℕ → V3) (randAngl : ℕ → ℕ → ℕ → ℝ × ℝ)
    (n_smpls n_resds : ℕ) (cord : List (List Resd3)) (cmsk : List (List Cmsk3))
    (hcord : shapeOk cord n_smpls n_resds) (hcmsk : shapeOk cmsk n_smpls n_resds) :
    ∃ out : QtaOut,
      init_qta_params framFn randQuat randTrsl randAngl n_smpls n_resds "3d-cord"
        (some cord) (some cmsk) = .ok out ∧
      ∀ i j, i < n_smpls → j < n_resds →
        ((((cmsk.getD i []).getD j default).n = false ∨
          (((cmsk.getD i []).getD j default).ca = false ∨
           ((cmsk.getD i []).getD j default).c = false)) →
          (out.quat.getD i []).getD j default = ⟨1, 0, 0, 0⟩ ∧
          (out.trsl.getD i []).getD j default = ⟨0, 0, 0⟩) ∧
        ((((cmsk.getD i []).getD j default).n = true ∧
          (((cmsk.getD i []).getD j default).ca = true ∧
           ((cmsk.getD i []).getD j default).c = true)) →
          (out.quat.getD i []).getD j default =
            (framFn ((cord.getD i []).getD j default)).1 ∧
          (out.trsl.getD i []).getD j default =
            (framFn ((cord.getD i []).getD j default)).2) := by
  have hrun : init_qta_params framFn randQuat randTrsl randAngl n_smpls n_resds
      "3d-cord" (some cord) (some cmsk) =
      .ok ⟨qtaGrid n_smpls n_resds (fun i j =>
             let mk := (cmsk.getD i []).getD j default
             if mk.n && mk.ca && mk.c then
               (framFn ((cord.getD i []).getD j default)).1
             else bhQuat),
           qtaGrid n_smpls n_resds (fun i j =>
             let mk := (cmsk.getD i []).getD j default
             if mk.n && mk.ca && mk.c then
               (framFn ((cord.getD i []).getD j default)).2
             else bhTrsl),
           qtaGrid n_smpls n_resds (fun _ _ => bhAngl)⟩ := by
    rw [init_qta_params_mode_3dcord]
    simp only [init_qta_params_3dcord]
    rw [if_pos hcord, if_pos hcmsk]
  refine ⟨_, hrun, ?_⟩
  intro i j hi hj
  have hgq := qtaGrid_getD n_smpls n_resds (fun i j =>
      let mk := (cmsk.getD i []).getD j default
      if mk.n && mk.ca && mk.c then (framFn ((cord.getD i []).getD j default)).1
      else bhQuat) default i j hi hj
  have hgt := qtaGrid_getD n_smpls n_resds (fun i j =>
      let mk := (cmsk.getD i []).getD j default
      if mk.n && mk.ca && mk.c then (framFn ((cord.getD i []).getD j default)).2
      else bhTrsl) default i j hi hj
  constructor
  · intro hinv
    have hfalse : (((cmsk.getD i []).getD j default).n &&
        ((cmsk.getD i []).getD j default).ca && ((cmsk.getD i []).getD j default).c)
        = false := by
      rcases hinv with h | h | h <;>
        simp only [h, Bool.false_and, Bool.and_false]
    constructor
    · simp only [hgq]
      rw [hfalse]
      rfl
    · simp only [hgt]
      rw [hfalse]
      rfl
  · intro hval
    have htrue : (((cmsk.getD i []).getD j default).n &&
        ((cmsk.getD i []).getD j default).ca && ((cmsk.getD i []).getD j default).c)
        = true := by
      rw [hval.1, hval.2.1, hval.2.2]
      rfl
    constructor
    · simp only [hgq]
      rw [htrue]
      rfl
    · simp only [hgt]
      rw [htrue]
      rfl

/-- Concrete inputs used to instantiate the coordinate-derived fallback
claim: residue 0 has an invalid N atom, residue 1 is fully valid. -/
def w4fram : Resd3 → Quat × V3 := fun _ => (⟨2, 0, 0, 0⟩, ⟨3, 0, 0⟩)

/-- Concrete coordinate tensor for the fallback witness. -/
def w4cord : List (List Resd3) := [[default, default]]

/-- Concrete validity-mask tensor for the fallback witness. -/
def w4cmsk : List (List Cmsk3) := [[⟨false, true, true⟩, ⟨true, true, true⟩]]

/-- C4 witness: one sample with two residues, the first having an invalid N
atom and the second all atoms valid, under a frame function returning a
non-canonical value — the sample mixes canonical and coordinate-derived
residues. -/
theorem init_qta_3dcord_per_residue_fallback_witness :
    ∃ out : QtaOut,
      init_qta_params w4fram (fun _ _ => bhQuat) (fun _ _ => bhTrsl)
        (fun _ _ _ => (1, 0)) 1 2 "3d-cord" (some w4cord) (some w4cmsk) = .ok out ∧
      ∀ i j, i < 1 → j < 2 →
        ((((w4cmsk.getD i []).getD j default).n = false ∨
          ((((w4cmsk.getD i []).getD j default).ca = false ∨
           ((w4cmsk.getD i []).getD j default).c = false))) →
          (out.quat.getD i []).getD j default = ⟨1, 0, 0, 0⟩ ∧
          (out.trsl.getD i []).getD j default = ⟨0, 0, 0⟩) ∧
        ((((w4cmsk.getD i []).getD j default).n = true ∧
          ((((w4cmsk.getD i []).getD j default).ca = true ∧
           ((w4cmsk.getD i []).getD j default).c = true))) →
          (out.quat.getD i []).getD j default =
            (w4fram ((w4cord.getD i []).getD j default)).1 ∧
          (out.trsl.getD i []).getD j default =
            (w4fram ((w4cord.getD i []).getD j default)).2) :=
  init_qta_3dcord_per_residue_fallback w4fram (fun _ _ => bhQuat) (fun _ _ => bhTrsl)
    (fun _ _ _ => (1, 0)) 1 2 w4cord w4cmsk
    (by constructor <;> decide) (by constructor <;> decide)

/-- C6: every quaternion returned by `init_qta_params` has unit L2 norm in
all three modes (in 3d-cord mode under the spec-modelled guarantee that the
rotation-to-quaternion conversion yields unit quaternions, and in random
mode when the Gaussian draw is nonzero, as holds almost surely); in random
mode additionally every returned quaternion has `qr ≥ 0`. -/
theorem init_qta_quat_unit_norm
    (framFn : Resd3 → Quat × V3)
    (randQuat : ℕ → ℕ → Quat) (randTrsl : ℕ → ℕ → V3) (randAngl : ℕ → ℕ → ℕ → ℝ × ℝ)
    (n_smpls n_resds : ℕ)
    (cord_tns : Option (List (List Resd3))) (cmsk_tns : Option (List (List Cmsk3)))
    (cord : List (List Resd3)) (cmsk : List (List Cmsk3))
    (hfram : ∀ rd, Quat.norm (framFn rd).1 = 1)
    (hrand : ∀ i j, Quat.normSq (randQuat i j) ≠ 0)
    (hcord : shapeOk cord n_smpls n_resds) (hcmsk : shapeOk cmsk n_smpls n_resds) :
    (∀ out, init_qta_params framFn randQuat randTrsl randAngl n_smpls n_resds
        "black-hole" cord_tns cmsk_tns = .ok out →
      ∀ i j, i < n_smpls → j < n_resds →
        Quat.norm ((out.quat.getD i []).getD j default) = 1) ∧
    (∀ out, init_qta_params framFn randQuat randTrsl randAngl n_smpls n_resds
        "3d-cord" (some cord) (some cmsk) = .ok out →
      ∀ i j, i < n_smpls → j < n_resds →
        Quat.norm ((out.quat.getD i []).getD j default) = 1) ∧
    (∀ out, init_qta_params framFn randQuat randTrsl randAngl n_smpls n_resds
        "random" cord_tns cmsk_tns = .ok out →
      ∀ i j, i < n_smpls → j < n_resds →
        Quat.norm ((out.quat.getD i []).getD j default) = 1 ∧
        0 ≤ ((out.quat.getD i []).getD j default).r) := by
  refine ⟨?_, ?_, ?_⟩
  · intro out hout i j hi hj
    rw [init_qta_params, if_pos rfl] at hout
    cases hout
    have hg := qtaGrid_getD n_smpls n_resds (fun _ _ => bhQuat) default i j hi hj
    simp only [hg]
    exact bhQuat_norm
  · intro out hout i j hi hj
    rw [init_qta_params_mode_3dcord] at hout
    simp only [init_qta_params_3dcord] at hout
    rw [if_pos hcord, if_pos hcmsk] at hout
    cases hout
    have hg := qtaGrid_getD n_smpls n_resds (fun i j =>
        let mk := (cmsk.getD i []).getD j default
        if mk.n && mk.ca && mk.c then (framFn ((cord.getD i []).getD j default)).1
        else bhQuat) default i j hi hj
    simp only [hg]
    cases hb : (((cmsk.getD i []).getD j default).n &&
        ((cmsk.getD i []).getD j default).ca && ((cmsk.getD i []).getD j default).c) with
    | false => exact bhQuat_norm
    | true => exact hfram _
  · intro out hout i j hi hj
    rw [init_qta_params, if_neg (by decide), if_neg (by decide), if_pos rfl] at hout
    cases hout
    have hg := qtaGrid_getD n_smpls n_resds (fun i j => canonQuat (randQuat i j))
      default i j hi hj
    simp only [hg]
    exact ⟨canonQuat_norm_one _ (hrand i j), canonQuat_r_nonneg _ (hrand i j)⟩

/-- C6 witness: the three mode statements instantiated at `N = L = 1` with a
frame function returning the unit quaternion and a constant nonzero random
draw. -/
theorem init_qta_quat_unit_norm_witness :
    (∀ out, init_qta_params (fun _ => (bhQuat, bhTrsl)) (fun _ _ => bhQuat)
        (fun _ _ => bhTrsl) (fun _ _ _ => (1, 0)) 1 1
        "black-hole" none none = .ok out →
      ∀ i j, i < 1 → j < 1 →
        Quat.norm ((out.quat.getD i []).getD j default) = 1) ∧
    (∀ out, init_qta_params (fun _ => (bhQuat, bhTrsl)) (fun _ _ => bhQuat)
        (fun _ _ => bhTrsl) (fun _ _ _ => (1, 0)) 1 1
        "3d-cord" (some [[default]]) (some [[default]]) = .ok out →
      ∀ i j, i < 1 → j < 1 →
        Quat.norm ((out.quat.getD i []).getD j default) = 1) ∧
    (∀ out, init_qta_params (fun _ => (bhQuat, bhTrsl)) (fun _ _ => bhQuat)
        (fun _ _ => bhTrsl) (fun _ _ _ => (1, 0)) 1 1
        "random" none none = .ok out →
      ∀ i j, i < 1 → j < 1 →
        Quat.norm ((out.quat.getD i []).getD j default) = 1 ∧
        0 ≤ ((out.quat.getD i []).getD j default).r) :=
  init_qta_quat_unit_norm (fun _ => (bhQuat, bhTrsl)) (fun _ _ => bhQuat)
    (fun _ _ => bhTrsl) (fun _ _ _ => (1, 0)) 1 1 none none [[default]] [[default]]
    (fun _ => bhQuat_norm) (fun _ _ => by rw [bhQuat_normSq]; norm_num)
    (by constructor <;> decide) (by constructor <;> decide)

/-- C10: in 3d-cord mode an omitted (`None`) coordinate or validity tensor
fails by reading `.shape` of `None` — an `AttributeError`, not the declared
shape-mismatch `AssertionError`; the `AssertionError` is raised only when an
actual tensor of the wrong shape was supplied. -/
theorem init_qta_3dcord_none_attribute_error
    (framFn : Resd3 → Quat × V3)
    (randQuat : ℕ → ℕ → Quat) (randTrsl : ℕ → ℕ → V3) (randAngl : ℕ → ℕ → ℕ → ℝ × ℝ)
    (n_smpls n_resds : ℕ) :
    (∀ cmsk_tns, init_qta_params framFn randQuat randTrsl randAngl n_smpls n_resds
        "3d-cord" none cmsk_tns = .error .attributeError) ∧
    (∀ cord, shapeOk cord n_smpls n_resds →
      init_qta_params framFn randQuat randTrsl randAngl n_smpls n_resds "3d-cord"
        (some cord) none = .error .attributeError) ∧
    (∀ cord_tns cmsk_tns,
      init_qta_params framFn randQuat randTrsl randAngl n_smpls n_resds "3d-cord"
        cord_tns cmsk_tns = .error .assertionError →
      (∃ cord, cord_tns = some cord ∧ ¬ shapeOk cord n_smpls n_resds) ∨
      (∃ cord cmsk, cord_tns = some cord ∧ cmsk_tns = some cmsk ∧
        ¬ shapeOk cmsk n_smpls n_resds)) := by
  refine ⟨?_, ?_, ?_⟩
  · intro cmsk_tns
    rw [init_qta_params_mode_3dcord]
    rfl
  · intro cord hcord
    rw [init_qta_params_mode_3dcord]
    simp only [init_qta_params_3dcord]
    rw [if_pos hcord]
  · intro cord_tns cmsk_tns h
    rw [init_qta_params_mode_3dcord] at h
    cases cord_tns with
    | none =>
      simp only [init_qta_params_3dcord] at h
      injection h with h2
      cases h2
    | some cord =>
      by_cases hsc : shapeOk cord n_smpls n_resds
      · cases cmsk_tns with
        | none =>
          simp only [init_qta_params_3dcord] at h
          rw [if_pos hsc] at h
          injection h with h2
          cases h2
        | some cmsk =>
          by_cases hsm : shapeOk cmsk n_smpls n_resds
          · simp only [init_qta_params_3dcord] at h
            rw [if_pos hsc, if_pos hsm] at h
            cases h
          · exact Or.inr ⟨cord, cmsk, rfl, rfl, hsm⟩
      · exact Or.inl ⟨cord, rfl, hsc⟩

/-- C10 witness: with `N = L = 1`, an omitted coordinate tensor and an
omitted validity tensor both give `AttributeError`, and an actual
`AssertionError` implies a wrongly-shaped tensor was supplied. -/
theorem init_qta_3dcord_none_attribute_error_witness :
    (∀ cmsk_tns, init_qta_params (fun _ => (bhQuat, bhTrsl)) (fun _ _ => bhQuat)
        (fun _ _ => bhTrsl) (fun _ _ _ => (1, 0)) 1 1
        "3d-cord" none cmsk_tns = .error .attributeError) ∧
    (∀ cord, shapeOk cord 1 1 →
      init_qta_params (fun _ => (bhQuat, bhTrsl)) (fun _ _ => bhQuat)
        (fun _ _ => bhTrsl) (fun _ _ _ => (1, 0)) 1 1 "3d-cord"
        (some cord) none = .error .attributeError) ∧
    (∀ cord_tns cmsk_tns,
      init_qta_params (fun _ => (bhQuat, bhTrsl)) (fun _ _ => bhQuat)
        (fun _ _ => bhTrsl) (fun _ _ _ => (1, 0)) 1 1 "3d-cord"
        cord_tns cmsk_tns = .error .assertionError →
      (∃ cord, cord_tns = some cord ∧ ¬ shapeOk cord 1 1) ∨
      (∃ cord cmsk, cord_tns = some cord ∧ cmsk_tns = some cmsk ∧
        ¬ shapeOk cmsk 1 1)) :=
  init_qta_3dcord_none_attribute_error (fun _ => (bhQuat, bhTrsl)) (fun _ _ => bhQuat)
    (fun _ _ => bhTrsl) (fun _ _ _ => (1, 0)) 1 1
